import Mathlib

set_option maxHeartbeats 1000000
set_option maxRecDepth 8000
set_option allowUnsafeReducibility true

attribute [local semireducible] Rat.mul Rat.add Rat.inv Rat.div Rat.sub Rat.neg

namespace Bombcell

/-! Shallow embedding of the quality-metric engine of
`src/pyBombCell/bombcell/quality_metrics.py`.

Modelling conventions, used throughout:
* Finite floating-point values are modelled as exact rationals (every finite
  IEEE double is a rational number); a float that may be NaN is modelled as
  `Option ℚ` with `none` for NaN, matching numpy's convention that every
  ordered comparison involving NaN is false.
* Calls into scipy (`curve_fit`, `find_peaks`, `medfilt`) are external
  library code, not code of this repository; where a claim does not depend
  on their output they enter the model as explicit oracle parameters, so the
  theorems hold for every possible behaviour of the library call.
* numpy's `np.sqrt` is modelled by `Real.sqrt` (exact, not rounded).
-/

/-- Comparison `x > c` with numpy NaN semantics: false when `x` is NaN
(`none`). Models `quality_metrics[...] > param[...]` on float arrays. -/
def nanGT (x : Option ℚ) (c : ℚ) : Bool :=
  match x with
  | some v => decide (c < v)
  | none => false

/-- Comparison `x < c` with numpy NaN semantics: false when `x` is NaN. -/
def nanLT (x : Option ℚ) (c : ℚ) : Bool :=
  match x with
  | some v => decide (v < c)
  | none => false

/-- The subset of the `param` dictionary read by `get_quality_unit_type`
(thresholds are finite floats, hence rationals; feature toggles are booleans). -/
structure ClassifierParams where
  max_n_peaks : ℚ
  max_n_troughs : ℚ
  min_wv_duration : ℚ
  max_wv_duration : ℚ
  max_wv_baseline_fraction : ℚ
  max_scnd_peak_to_trough_ratio_noise : ℚ
  min_spatial_decay_slope : ℚ
  min_spatial_decay_slope_exp : ℚ
  max_spatial_decay_slope_exp : ℚ
  min_trough_to_peak2_ratio_non_somatic : ℚ
  min_width_first_peak_non_somatic : ℚ
  min_width_main_trough_non_somatic : ℚ
  max_peak1_to_peak2_ratio_non_somatic : ℚ
  max_main_peak_to_trough_ratio_non_somatic : ℚ
  max_perc_spikes_missing : ℚ
  min_num_spikes_total : ℚ
  max_RPV : ℚ
  min_presence_ratio : ℚ
  min_amplitude : ℚ
  min_SNR : ℚ
  max_drift : ℚ
  iso_d_min : ℚ
  lratio_max : ℚ
  compute_spatial_decay : Bool
  sp_decay_lin_fit : Bool
  extract_raw_waveforms : Bool
  compute_drift : Bool
  compute_distance_metrics : Bool
  split_good_and_mua_non_somatic : Bool

/-- One row (one unit) of the `quality_metrics` table read by
`get_quality_unit_type`; every entry is a float that may be NaN. -/
structure QualityMetricsRow where
  n_peaks : Option ℚ
  n_troughs : Option ℚ
  waveform_duration_peak_trough : Option ℚ
  waveform_baseline_flatness : Option ℚ
  scnd_peak_to_trough_ratio : Option ℚ
  spatial_decay_slope : Option ℚ
  trough_to_peak2_ratio : Option ℚ
  peak_before_width : Option ℚ
  trough_width : Option ℚ
  peak1_to_peak2_ratio : Option ℚ
  main_peak_to_trough_ratio : Option ℚ
  percent_missing_gaussian : Option ℚ
  n_spikes : Option ℚ
  fraction_RPVs : Option ℚ
  presence_ratio : Option ℚ
  raw_amplitude : Option ℚ
  signal_to_noise_ratio : Option ℚ
  max_drift_estimate : Option ℚ
  isolation_dist : Option ℚ
  l_ratio : Option ℚ

/-- The noise mask of `get_quality_unit_type` (lines 1561-1577), for one unit:
`np.isnan(n_peaks) | n_peaks > max_n_peaks | ... `, with the spatial-decay
disjuncts switched on `compute_spatial_decay & sp_decay_lin_fit`. -/
def noise_mask (p : ClassifierParams) (m : QualityMetricsRow) : Bool :=
  m.n_peaks.isNone ||
  nanGT m.n_peaks p.max_n_peaks ||
  nanGT m.n_troughs p.max_n_troughs ||
  nanLT m.waveform_duration_peak_trough p.min_wv_duration ||
  nanGT m.waveform_duration_peak_trough p.max_wv_duration ||
  nanGT m.waveform_baseline_flatness p.max_wv_baseline_fraction ||
  nanGT m.scnd_peak_to_trough_ratio p.max_scnd_peak_to_trough_ratio_noise ||
  (if p.compute_spatial_decay && p.sp_decay_lin_fit then
    nanLT m.spatial_decay_slope p.min_spatial_decay_slope
  else if p.compute_spatial_decay then
    (nanLT m.spatial_decay_slope p.min_spatial_decay_slope_exp ||
     nanGT m.spatial_decay_slope p.max_spatial_decay_slope_exp)
  else false)

/-- The non-somatic predicate of `get_quality_unit_type` (lines 1582-1588);
in the source `&` binds tighter than `|`, reproduced by the grouping here. -/
def is_non_somatic (p : ClassifierParams) (m : QualityMetricsRow) : Bool :=
  (nanLT m.trough_to_peak2_ratio p.min_trough_to_peak2_ratio_non_somatic &&
   nanLT m.peak_before_width p.min_width_first_peak_non_somatic &&
   nanLT m.trough_width p.min_width_main_trough_non_somatic &&
   nanGT m.peak1_to_peak2_ratio p.max_peak1_to_peak2_ratio_non_somatic) ||
  nanGT m.main_peak_to_trough_ratio p.max_main_peak_to_trough_ratio_non_somatic

/-- The MUA mask of `get_quality_unit_type` (lines 1591-1611) for one unit.
Each `|=` term in the source is gated by `np.isnan(unit_type)`, which at that
point in the source holds exactly for non-noise units; the gate is applied
once by the caller below.  Note the source compares
`isolation_dist > iso_d_min` (line 1609), reproduced verbatim. -/
def mua_mask (p : ClassifierParams) (m : QualityMetricsRow) : Bool :=
  (nanGT m.percent_missing_gaussian p.max_perc_spikes_missing ||
   nanLT m.n_spikes p.min_num_spikes_total ||
   nanGT m.fraction_RPVs p.max_RPV ||
   nanLT m.presence_ratio p.min_presence_ratio) ||
  (if p.extract_raw_waveforms then
    (nanLT m.raw_amplitude p.min_amplitude || nanLT m.signal_to_noise_ratio p.min_SNR)
  else false) ||
  (if p.compute_drift then nanGT m.max_drift_estimate p.max_drift else false) ||
  (if p.compute_distance_metrics then
    (nanGT m.isolation_dist p.iso_d_min || nanGT m.l_ratio p.lratio_max)
  else false)

/-- `get_quality_unit_type` for one unit (the source is vectorized over
units; every array operation it performs is elementwise, so the per-unit
semantics is exact).  Codes: 0 NOISE, 1 GOOD, 2 MUA, 3 non-somatic
(good when split), 4 non-somatic MUA. -/
def get_quality_unit_type (p : ClassifierParams) (m : QualityMetricsRow) : ℕ :=
  let t0 : ℕ := if noise_mask p m then 0 else if mua_mask p m then 2 else 1
  if p.split_good_and_mua_non_somatic then
    if t0 = 1 && is_non_somatic p m then 3
    else if t0 = 2 && is_non_somatic p m then 4
    else t0
  else
    if t0 ≠ 0 && is_non_somatic p m then 3 else t0

/-- The string label assigned to each numeric unit type (source lines
1626-1632). -/
def unit_type_label (p : ClassifierParams) (t : ℕ) : String :=
  if t = 0 then "NOISE"
  else if t = 1 then "GOOD"
  else if t = 2 then "MUA"
  else if t = 3 then
    (if p.split_good_and_mua_non_somatic then "NON-SOMA GOOD" else "NON-SOMA")
  else "NON-SOMA MUA"

/-- A parameter set with every toggle off, used to build concrete scenarios. -/
def baseParams : ClassifierParams where
  max_n_peaks := 2
  max_n_troughs := 2
  min_wv_duration := 100
  max_wv_duration := 800
  max_wv_baseline_fraction := 3/10
  max_scnd_peak_to_trough_ratio_noise := 8/10
  min_spatial_decay_slope := -1/10
  min_spatial_decay_slope_exp := 1/100
  max_spatial_decay_slope_exp := 1/10
  min_trough_to_peak2_ratio_non_somatic := 5
  min_width_first_peak_non_somatic := 4
  min_width_main_trough_non_somatic := 5
  max_peak1_to_peak2_ratio_non_somatic := 3
  max_main_peak_to_trough_ratio_non_somatic := 8/10
  max_perc_spikes_missing := 20
  min_num_spikes_total := 300
  max_RPV := 1/10
  min_presence_ratio := 7/10
  min_amplitude := 20
  min_SNR := 1/10
  max_drift := 100
  iso_d_min := 10
  lratio_max := 3/10
  compute_spatial_decay := false
  sp_decay_lin_fit := false
  extract_raw_waveforms := false
  compute_drift := false
  compute_distance_metrics := false
  split_good_and_mua_non_somatic := false

/-- A metric row that passes every threshold of `baseParams`: with it alone a
unit is classified GOOD. -/
def goodRow : QualityMetricsRow where
  n_peaks := some 1
  n_troughs := some 1
  waveform_duration_peak_trough := some 300
  waveform_baseline_flatness := some 0
  scnd_peak_to_trough_ratio := some 0
  spatial_decay_slope := some (1/20)
  trough_to_peak2_ratio := some 10
  peak_before_width := some 100
  trough_width := some 100
  peak1_to_peak2_ratio := some 0
  main_peak_to_trough_ratio := some 0
  percent_missing_gaussian := some 0
  n_spikes := some 1000
  fraction_RPVs := some 0
  presence_ratio := some 1
  raw_amplitude := some 100
  signal_to_noise_ratio := some 10
  max_drift_estimate := some 0
  isolation_dist := some 5
  l_ratio := some 0

/-- Insertion of a value into a sorted list, the helper of `sortQ`. -/
def insertSorted (a : ℚ) : List ℚ → List ℚ
  | [] => [a]
  | b :: t => if a ≤ b then a :: b :: t else b :: insertSorted a t

/-- Sorting in non-decreasing order (the model of `np.sort`, written as a
structurally recursive insertion sort so that it evaluates inside the
kernel). -/
def sortQ : List ℚ → List ℚ
  | [] => []
  | a :: t => insertSorted a (sortQ t)

theorem mem_insertSorted {x a : ℚ} {l : List ℚ} (h : x ∈ insertSorted a l) :
    x = a ∨ x ∈ l := by
  induction l with
  | nil =>
    simp [insertSorted] at h
    exact Or.inl h
  | cons b t ih =>
    by_cases hab : a ≤ b
    · simpa [insertSorted, hab, or_assoc] using h
    · rw [insertSorted, if_neg hab] at h
      rcases List.mem_cons.mp h with hb | ht
      · exact Or.inr (hb ▸ List.mem_cons_self b t)
      · rcases ih ht with h1 | h2
        · exact Or.inl h1
        · exact Or.inr (List.mem_cons_of_mem b h2)

theorem mem_sortQ {x : ℚ} {l : List ℚ} (h : x ∈ sortQ l) : x ∈ l := by
  induction l with
  | nil =>
    simp [sortQ] at h
  | cons a t ih =>
    rcases mem_insertSorted (by simpa [sortQ] using h) with h1 | h2
    · exact h1 ▸ List.mem_cons_self a t
    · exact List.mem_cons_of_mem a (ih h2)

/-- numpy `np.percentile(xs, q)` with the default linear interpolation:
with `s` the sorted data and `h = (n-1)·q/100`, the result is
`s[⌊h⌋] + (h-⌊h⌋)·(s[⌊h⌋+1] - s[⌊h⌋])`, the upper index clipped to `n-1`.
Defined as 0 on the empty list, where numpy raises an error. -/
def percentileNp (q : ℚ) (xs : List ℚ) : ℚ :=
  let s := sortQ xs
  let n := s.length
  if n = 0 then 0
  else
    let h : ℚ := ((n : ℚ) - 1) * q / 100
    let i : ℕ := (Int.floor h).toNat
    let lo := s.getD i 0
    let hi := s.getD (min (i + 1) (n - 1)) 0
    lo + (h - (i : ℚ)) * (hi - lo)

/-- If every data point is 0 then every percentile is 0. -/
theorem percentileNp_all_zero {xs : List ℚ} (hz : ∀ x ∈ xs, x = 0) (q : ℚ) :
    percentileNp q xs = 0 := by
  have hs : ∀ i : ℕ, (sortQ xs).getD i 0 = 0 := by
    intro i
    rcases Nat.lt_or_ge i (sortQ xs).length with hi | hi
    · rw [List.getD_eq_getElem?_getD, List.getElem?_eq_getElem hi]
      exact hz _ (mem_sortQ (List.getElem_mem hi))
    · rw [List.getD_eq_getElem?_getD, List.getElem?_eq_none (by omega)]
      rfl
  simp only [percentileNp, hs]
  split
  · rfl
  · ring

/-- numpy `np.arange(start, stop, step)` over exact rationals for a positive
step: the `⌈(stop-start)/step⌉` points `start + k·step`. numpy raises on
`step = 0` (and our uses never produce a negative step); both are modelled
as the empty list and never reached under the theorems' hypotheses. -/
def arangeQ (start stop step : ℚ) : List ℚ :=
  if step ≤ 0 then []
  else (List.range (Int.ceil ((stop - start) / step)).toNat).map
    (fun (k : ℕ) => start + (k : ℚ) * step)

/-- The per-bin spike counts of `presence_ratio` (lines 816-826): bin `x`
counts the spikes with `bins[x] ≤ t < bins[x+1]`. -/
def spikes_per_bin (theseSpikeTimes : List ℚ) (bins : List ℚ) : List ℕ :=
  (List.range (bins.length - 1)).map
    (fun x => (theseSpikeTimes.filter
      (fun t => decide (bins.getD x 0 ≤ t) && decide (t < bins.getD (x + 1) 0))).length)

/-- A list of natural counts viewed as rationals (numpy promotes the integer
count array to float when comparing with the float threshold). -/
def natsToRat (l : List ℕ) : List ℚ :=
  l.map (fun (k : ℕ) => (k : ℚ))

/-- The `full_bins` marker array of `presence_ratio` (lines 827-828): 1 where
the bin count reaches the activity threshold, 0 elsewhere. -/
def full_bins (counts : List ℕ) (thresh : ℚ) : List ℕ :=
  counts.map (fun (k : ℕ) => if thresh ≤ (k : ℚ) then 1 else 0)

theorem full_bins_length (counts : List ℕ) (thresh : ℚ) :
    (full_bins counts thresh).length = counts.length := by
  simp [full_bins]

theorem full_bins_sum_le (counts : List ℕ) (thresh : ℚ) :
    (full_bins counts thresh).sum ≤ counts.length := by
  have hle : ∀ x ∈ full_bins counts thresh, x ≤ 1 := by
    intro x hx
    rcases List.mem_map.mp hx with ⟨k, _, hk⟩
    by_cases hc : thresh ≤ (k : ℚ) <;> simp [hc] at hk <;> omega
  have := List.sum_le_card_nsmul _ 1 hle
  simpa [full_bins_length] using this

theorem full_bins_of_nonpos_thresh (counts : List ℕ) (thresh : ℚ)
    (h : thresh ≤ 0) : full_bins counts thresh = List.replicate counts.length 1 := by
  rw [List.eq_replicate_iff]
  refine ⟨by simp [full_bins_length], ?_⟩
  intro b hb
  rcases List.mem_map.mp hb with ⟨k, _, hk⟩
  rw [if_pos (le_trans h (by positivity))] at hk
  exact hk.symm

/-- `presence_ratio` (lines 788-833): split `[start, end)` into bins of the
configured width, mark a bin full when its count reaches 5% of the 90th
percentile of the per-bin counts, return the fraction of full bins.  `none`
models the error numpy raises when the grid has fewer than two edges
(`np.percentile` of the then-empty count array). -/
def presence_ratio (theseSpikeTimes : List ℚ) (tStart tEnd binSize : ℚ) : Option ℚ :=
  let bins := arangeQ tStart tEnd binSize
  if bins.length < 2 then none
  else
    let counts := spikes_per_bin theseSpikeTimes bins
    let fb := full_bins counts ((5 / 100) * percentileNp 90 (natsToRat counts))
    some ((fb.sum : ℚ) / (fb.length : ℚ))

/-- C10: whenever `presence_ratio` returns a value it lies in [0,1]; and for
a fully silent unit (every bin count zero) the activity threshold
`0.05·percentile90` evaluates to 0, every bin counts as active, and the
returned presence ratio is exactly 1, not 0. -/
theorem claim_C10_presence_ratio (theseSpikeTimes : List ℚ) (tStart tEnd binSize : ℚ)
    (hbins : 2 ≤ (arangeQ tStart tEnd binSize).length) :
    (∃ r, presence_ratio theseSpikeTimes tStart tEnd binSize = some r ∧ 0 ≤ r ∧ r ≤ 1) ∧
    ((∀ k ∈ spikes_per_bin theseSpikeTimes (arangeQ tStart tEnd binSize), k = 0) →
      (5 / 100 : ℚ) * percentileNp 90
          (natsToRat (spikes_per_bin theseSpikeTimes (arangeQ tStart tEnd binSize))) = 0 ∧
      presence_ratio theseSpikeTimes tStart tEnd binSize = some 1) := by
  have hnotlt : ¬ (arangeQ tStart tEnd binSize).length < 2 := by omega
  have hclen : (spikes_per_bin theseSpikeTimes (arangeQ tStart tEnd binSize)).length
      = (arangeQ tStart tEnd binSize).length - 1 := by
    simp [spikes_per_bin]
  have hcpos : 0 < (spikes_per_bin theseSpikeTimes (arangeQ tStart tEnd binSize)).length := by
    omega
  simp only [presence_ratio, if_neg hnotlt]
  constructor
  · refine ⟨_, rfl, ?_, ?_⟩
    · positivity
    · rw [div_le_one (by rw [full_bins_length]; exact_mod_cast hcpos)]
      have h1 := full_bins_sum_le
        (spikes_per_bin theseSpikeTimes (arangeQ tStart tEnd binSize))
        ((5 / 100) * percentileNp 90
          (natsToRat (spikes_per_bin theseSpikeTimes (arangeQ tStart tEnd binSize))))
      rw [full_bins_length]
      exact_mod_cast h1
  · intro hz
    have hzq : ∀ x ∈ natsToRat (spikes_per_bin theseSpikeTimes (arangeQ tStart tEnd binSize)),
        x = 0 := by
      intro x hx
      rcases List.mem_map.mp hx with ⟨k, hk, hkx⟩
      rw [hz k hk] at hkx
      rw [← hkx]
      simp
    have hp0 : (5 / 100 : ℚ) * percentileNp 90
        (natsToRat (spikes_per_bin theseSpikeTimes (arangeQ tStart tEnd binSize))) = 0 := by
      rw [percentileNp_all_zero hzq 90]
      ring
    refine ⟨hp0, ?_⟩
    rw [hp0, full_bins_of_nonpos_thresh _ _ le_rfl]
    have hsum : ((List.replicate (spikes_per_bin theseSpikeTimes
        (arangeQ tStart tEnd binSize)).length (1 : ℕ)).sum : ℚ)
        = ((spikes_per_bin theseSpikeTimes (arangeQ tStart tEnd binSize)).length : ℚ) := by
      simp [List.sum_replicate]
    rw [List.length_replicate, hsum,
      div_self (Nat.cast_ne_zero.mpr (Nat.pos_iff_ne_zero.mp hcpos))]

/-- Witness for C10: a unit with no spikes at all over the span [0,2) with
bin width 1 receives presence ratio exactly 1. -/
theorem claim_C10_witness : presence_ratio [] 0 2 1 = some 1 :=
  ((claim_C10_presence_ratio [] 0 2 1 (by decide)).2 (by decide)).2

/-- First index of the maximum of a list (numpy `np.argmax`; 0 on the empty
list, where numpy raises). -/
def argmaxFirst {α : Type} [Max α] [BEq α] (l : List α) : ℕ :=
  match l.max? with
  | none => 0
  | some m => l.indexOf m

/-- `time_chunks_to_keep` (lines 656-785), modelled down to the selected time
span `(use_this_time_start, use_this_time_end)`; the function's remaining
outputs are merely the spike arrays filtered to that span.  Steps, as in the
source: pick the tauR column with the largest summed RPV fraction; mark chunk
`c` good when `percent_missing_gaussian[c] < max_perc_spikes_missing` (false
for NaN) and `fraction_RPVs[c, use_tauR] < max_RPV`; when some adjacent pair
of good chunks exists take the longest run (`chunk_starts`/`chunk_ends`
machinery, reproduced verbatim) and slice `time_chunks[start : end + 1]`;
with good chunks but no adjacent pair take `time_chunks[first : first + 2]`;
with no good chunk keep all of `time_chunks`. -/
def time_chunks_to_keep (percentMissingGaussian : List (Option ℚ))
    (fractionRPVs : List (List ℚ)) (timeChunks : List ℚ)
    (maxRPV maxPercSpikesMissing : ℚ) : ℚ × ℚ :=
  let nTauR := (fractionRPVs.headD []).length
  let sumRPV : List ℚ := (List.range nTauR).map
    (fun j => (fractionRPVs.map (fun row => row.getD j 0)).sum)
  let useTauR := argmaxFirst sumRPV
  let nChunks := timeChunks.length - 1
  let good : List ℕ := (List.range nChunks).filter
    (fun c => nanLT (percentMissingGaussian.getD c none) maxPercSpikesMissing
      && decide ((fractionRPVs.getD c []).getD useTauR 0 < maxRPV))
  let useTheseTimes : List ℚ :=
    if 0 < good.length then
      let continuous : List ℕ := (good.zip good.tail).map (fun p => p.2 - p.1)
      if continuous.any (fun d => d == 1) then
        let breaks : List ℕ := ((List.range continuous.length).filter
          (fun p => decide (1 < continuous.getD p 0))).map (fun p => p + 1)
        let chunkStarts : List ℕ := 0 :: breaks
        let chunkEnds : List ℕ := breaks ++ [good.length - 1]
        let chunkLengths : List ℤ := (chunkEnds.zip chunkStarts).map
          (fun p => (p.1 : ℤ) - (p.2 : ℤ) + 1)
        let li := argmaxFirst chunkLengths
        let s := good.getD (chunkStarts.getD li 0) 0
        let e := good.getD (chunkEnds.getD li 0) 0
        (timeChunks.drop s).take (e + 1 - s)
      else
        (timeChunks.drop (good.headD 0)).take 2
    else timeChunks
  (useTheseTimes.headD 0, useTheseTimes.getLastD 0)

/-- C5 (code bug): with time chunks [0,10), [10,20), [20,30) all good, the
selected span is (0, 20), not the full recording span (0, 30) the claim (and
the MATLAB original, whose inclusive `timeChunks(a : b+1)` the Python slice
`time_chunks[a : b+1]` mistranslates) requires: for any good run of length
at least 2 the slice keeps edge indices `a .. b`, i.e. drops the closing
edge of the last good chunk.  The claim's second scenario - exactly one good
chunk, whose exact bounds (10, 20) are returned through the `first : first+2`
slice - does hold, so the defect is specific to multi-chunk runs. -/
theorem claim_C5_span_eval :
    time_chunks_to_keep [some 0, some 0, some 0] [[0], [0], [0]] [0, 10, 20, 30]
        (1 / 10) 20 = (0, 20) ∧
    ¬ time_chunks_to_keep [some 0, some 0, some 0] [[0], [0], [0]] [0, 10, 20, 30]
        (1 / 10) 20 = (0, 30) ∧
    time_chunks_to_keep [some 100, some 0, some 100] [[0], [0], [0]] [0, 10, 20, 30]
        (1 / 10) 20 = (10, 20) := by
  refine ⟨by decide, by decide, by decide⟩

/-- The numpy bin index of a value in a 50-bin histogram over `[lo, hi]`:
bin `i` holds `edges[i] ≤ v < edges[i+1]` with `edges = linspace(lo, hi, 51)`,
the last bin closed on the right (`np.histogram` semantics, exact because the
edges are the exact rationals `lo + i·(hi-lo)/50`). -/
def histBinIdx (lo hi : ℚ) (v : ℚ) : ℕ :=
  if v = hi then 49 else (Int.floor ((v - lo) * 50 / (hi - lo))).toNat

/-- `np.histogram(xs, bins=50)` counts (the `spike_counts_per_amp_bin` array
of `perc_spikes_missing`, line 389): the histogram range is
`[min xs, max xs]`, widened to `[v - 1/2, v + 1/2]` when all values are equal
(numpy's rule for a degenerate range). -/
def hist_counts (xs : List ℚ) : List ℕ :=
  match xs with
  | [] => List.replicate 50 0
  | x :: t =>
    let lo := (x :: t).foldl min x
    let hi := (x :: t).foldl max x
    let lo2 := if lo = hi then lo - 1 / 2 else lo
    let hi2 := if lo = hi then hi + 1 / 2 else hi
    (List.range 50).map
      (fun i => (x :: t).countP (fun v => decide (histBinIdx lo2 hi2 v = i)))

/-- Binning assigns each value at most one bin, so the histogram counts sum
to at most the number of values. -/
theorem sum_countP_range_le {α : Type} (f : α → ℕ) (k : ℕ) (xs : List α) :
    ((List.range k).map (fun i => xs.countP (fun v => decide (f v = i)))).sum
      ≤ xs.length := by
  induction xs with
  | nil => simp
  | cons a t ih =>
    have hbridge : ∀ ys : List α,
        ((List.range k).map (fun i => ys.countP (fun v => decide (f v = i)))).sum
          = ∑ i in Finset.range k, ys.countP (fun v => decide (f v = i)) := by
      intro ys
      rfl
    rw [hbridge] at ih ⊢
    have hstep : ∀ i : ℕ, (a :: t).countP (fun v => decide (f v = i))
        = t.countP (fun v => decide (f v = i)) + (if f a = i then 1 else 0) := by
      intro i
      rw [List.countP_cons]
      by_cases hfa : f a = i <;> simp [hfa]
    calc ∑ i in Finset.range k, (a :: t).countP (fun v => decide (f v = i))
        = ∑ i in Finset.range k,
            (t.countP (fun v => decide (f v = i)) + (if f a = i then 1 else 0)) := by
          exact Finset.sum_congr rfl (fun i _ => hstep i)
      _ = (∑ i in Finset.range k, t.countP (fun v => decide (f v = i)))
            + ∑ i in Finset.range k, (if f a = i then 1 else 0) := by
          rw [Finset.sum_add_distrib]
      _ ≤ t.length + 1 := by
          have h1 : ∑ i in Finset.range k, (if f a = i then 1 else 0)
              = if f a ∈ Finset.range k then 1 else 0 :=
            Finset.sum_ite_eq (Finset.range k) (f a) (fun _ => 1)
          have h2 : (if f a ∈ Finset.range k then 1 else 0) ≤ 1 := by
            split <;> omega
          omega
      _ = (a :: t).length := by simp

/-- The histogram counts of any data list sum to at most its length. -/
theorem hist_counts_sum_le (xs : List ℚ) : (hist_counts xs).sum ≤ xs.length := by
  match xs with
  | [] => simp [hist_counts]
  | x :: t =>
    simp only [hist_counts]
    exact sum_countP_range_le _ 50 (x :: t)

/-- One iteration of the per-chunk loop of `perc_spikes_missing` (lines
364-502), returning the pair (Gaussian-cut estimate, symmetric estimate)
with `none` for NaN.  The chunk's amplitudes are the amplitudes of the
spikes with `time_chunks[i] ≤ t < time_chunks[i+1]`; an empty chunk yields
(NaN, NaN) at once (lines 374-380); otherwise extreme outliers above
`Q99 + 10·(Q99-Q1)` are dropped (lines 383-387), and when the histogram of
what remains holds 5 or fewer spikes both estimates are NaN (lines 392 and
496-502).  Past that gate the estimates rest on `scipy.optimize.curve_fit`
and `scipy.signal.medfilt` (external library code), modelled by the oracle
`fitted` applied to the retained amplitudes: the theorems below hold for
every behaviour of the fit. -/
def perc_spikes_missing_chunk (fitted : List ℚ → ℚ × ℚ)
    (theseAmplitudes theseSpikeTimes : List ℚ) (lo hi : ℚ) : Option ℚ × Option ℚ :=
  let here := ((theseSpikeTimes.zip theseAmplitudes).filter
    (fun p => decide (lo ≤ p.1) && decide (p.1 < hi))).map (fun p => p.2)
  if here.length = 0 then (none, none)
  else
    let q01 := percentileNp 1 here
    let q99 := percentileNp 99 here
    let retained := here.filter (fun a => !(decide (q99 + 10 * (q99 - q01) < a)))
    if 5 < (hist_counts retained).sum then
      (some (fitted retained).1, some (fitted retained).2)
    else (none, none)

/-- C6: a time chunk holding at most 5 spikes (the empty chunk included)
yields NaN for both the Gaussian-cut and the symmetric missing-spike
estimate, whatever the curve fit would return: outlier removal only shrinks
the sample further, and the histogram-count gate `sum > 5` then fails. -/
theorem claim_C6_low_count_nan (fitted : List ℚ → ℚ × ℚ)
    (theseAmplitudes theseSpikeTimes : List ℚ) (lo hi : ℚ)
    (h : ((theseSpikeTimes.zip theseAmplitudes).filter
      (fun p => decide (lo ≤ p.1) && decide (p.1 < hi))).length ≤ 5) :
    perc_spikes_missing_chunk fitted theseAmplitudes theseSpikeTimes lo hi
      = (none, none) := by
  simp only [perc_spikes_missing_chunk, List.length_map]
  by_cases h0 : ((theseSpikeTimes.zip theseAmplitudes).filter
      (fun p => decide (lo ≤ p.1) && decide (p.1 < hi))).length = 0
  · rw [if_pos h0]
  · rw [if_neg h0]
    have hretained := List.length_filter_le
      (fun a => !(decide (percentileNp 99 (((theseSpikeTimes.zip theseAmplitudes).filter
          (fun p => decide (lo ≤ p.1) && decide (p.1 < hi))).map (fun p => p.2))
        + 10 * (percentileNp 99 (((theseSpikeTimes.zip theseAmplitudes).filter
          (fun p => decide (lo ≤ p.1) && decide (p.1 < hi))).map (fun p => p.2))
          - percentileNp 1 (((theseSpikeTimes.zip theseAmplitudes).filter
          (fun p => decide (lo ≤ p.1) && decide (p.1 < hi))).map (fun p => p.2))) < a)))
      (((theseSpikeTimes.zip theseAmplitudes).filter
        (fun p => decide (lo ≤ p.1) && decide (p.1 < hi))).map (fun p => p.2))
    have hhist := hist_counts_sum_le
      ((((theseSpikeTimes.zip theseAmplitudes).filter
        (fun p => decide (lo ≤ p.1) && decide (p.1 < hi))).map (fun p => p.2)).filter
      (fun a => !(decide (percentileNp 99 (((theseSpikeTimes.zip theseAmplitudes).filter
          (fun p => decide (lo ≤ p.1) && decide (p.1 < hi))).map (fun p => p.2))
        + 10 * (percentileNp 99 (((theseSpikeTimes.zip theseAmplitudes).filter
          (fun p => decide (lo ≤ p.1) && decide (p.1 < hi))).map (fun p => p.2))
          - percentileNp 1 (((theseSpikeTimes.zip theseAmplitudes).filter
          (fun p => decide (lo ≤ p.1) && decide (p.1 < hi))).map (fun p => p.2))) < a))))
    rw [List.length_map] at hretained
    rw [if_neg (by omega)]

/-- Witness for C6: a chunk with exactly 3 spikes returns (NaN, NaN) even
under an oracle fit that would report (42, 7). -/
theorem claim_C6_witness :
    perc_spikes_missing_chunk (fun _ => (42, 7)) [1, 2, 3] [0, 1, 2] 0 10
      = (none, none) :=
  claim_C6_low_count_nan (fun _ => (42, 7)) [1, 2, 3] [0, 1, 2] 0 10 (by decide)

/-- The metrics derived by `waveform_shape`; each one is a float that may be
NaN. -/
structure WaveformShapeMetrics where
  n_peaks : Option ℚ
  n_troughs : Option ℚ
  waveform_duration_peak_trough : Option ℚ
  spatial_decay_slope : Option ℚ
  waveform_baseline : Option ℚ
  scnd_peak_to_trough_ratio : Option ℚ
  peak1_to_peak2_ratio : Option ℚ
  main_peak_to_trough_ratio : Option ℚ
  trough_to_peak2_ratio : Option ℚ
  peak_before_width : Option ℚ
  trough_width : Option ℚ

/-- The all-NaN result that lines 1011-1022 of `waveform_shape` assign. -/
def waveform_shape_nan : WaveformShapeMetrics :=
  ⟨none, none, none, none, none, none, none, none, none, none, none⟩

/-- `waveform_shape` (lines 965-1338) at the level claim C7 concerns: the
unit's peak-channel template trace is a float array whose samples may be NaN
(`Option ℚ`); when any sample is NaN (`np.any(np.isnan(this_waveform))`,
line 1011) every derived metric is set to NaN and the whole analysis branch
is skipped.  The analysis branch itself rests on `scipy.signal.find_peaks`
and `scipy.optimize.curve_fit` (external library code) and is modelled by
the oracle `analyse`, applied to the then NaN-free samples; the C7 theorem
holds for every behaviour of that branch. -/
def waveform_shape (analyse : List ℚ → WaveformShapeMetrics)
    (this_waveform : List (Option ℚ)) : WaveformShapeMetrics :=
  if this_waveform.any (fun s => s.isNone) then waveform_shape_nan
  else analyse (this_waveform.map (fun s => s.getD 0))

/-- C7: if any sample of the peak-channel template waveform is NaN, every
derived shape metric (`n_peaks`, `n_troughs`, duration, spatial decay slope,
baseline fraction, the four amplitude ratios, peak-before width, trough
width) is NaN, whatever the peak analysis would have computed. -/
theorem claim_C7_nan_short_circuit (analyse : List ℚ → WaveformShapeMetrics)
    (this_waveform : List (Option ℚ))
    (h : this_waveform.any (fun s => s.isNone) = true) :
    waveform_shape analyse this_waveform = waveform_shape_nan := by
  simp [waveform_shape, h]

/-- Witness for C7: a three-sample waveform with one NaN sample returns the
all-NaN record even under an oracle analysis returning all-finite metrics. -/
theorem claim_C7_witness :
    waveform_shape
      (fun _ => ⟨some 1, some 1, some 300, some 1, some 0, some 0, some 0,
        some 0, some 10, some 9, some 8⟩)
      [some 1, none, some 3] = waveform_shape_nan :=
  claim_C7_nan_short_circuit _ [some 1, none, some 3] (by decide)

/-- The effective drift bin width of `max_drift_estimate` (lines 898-899):
halved to half the active lifetime when the lifetime is shorter than twice
the configured width. -/
def max_drift_bin_width (driftBinSize tmin tmax : ℚ) : ℚ :=
  if tmax - tmin < 2 * driftBinSize then (tmax - tmin) / 2 else driftBinSize

/-- The time-bin edge grid of `max_drift_estimate` (lines 901-903):
`np.arange(min, max, bin_width)`.  The median-depth loop then runs over
`time_bins[:-1]`, i.e. computes `length - 1` median values. -/
def max_drift_time_bins (driftBinSize tmin tmax : ℚ) : List ℚ :=
  arangeQ tmin tmax (max_drift_bin_width driftBinSize tmin tmax)

/-- C9 counterexample: a unit active on [0,1] with default width 1 triggers
the halving (lifetime 1 < 2·1, width becomes 1/2), but the resulting edge
grid [0, 1/2] yields exactly ONE median bin (`time_bins[:-1]` has one entry),
not the "at least 2 time bins" the claim states. -/
theorem claim_C9_counterexample :
    max_drift_bin_width 1 0 1 = 1 / 2 ∧
    max_drift_time_bins 1 0 1 = [0, 1 / 2] ∧
    (max_drift_time_bins 1 0 1).length - 1 = 1 ∧
    ¬ 2 ≤ (max_drift_time_bins 1 0 1).length - 1 := by
  refine ⟨by decide, by decide, by decide, by decide⟩

/-- C9 as amended: when the active lifetime is positive and shorter than
twice the configured width, the bin width is halved to half the lifetime,
which guarantees the time-bin edge grid has exactly 2 entries - that is, at
least one complete median bin (not two as the claim states). -/
theorem claim_C9_amended (W tmin tmax : ℚ) (h0 : tmin < tmax)
    (h : tmax - tmin < 2 * W) :
    max_drift_bin_width W tmin tmax = (tmax - tmin) / 2 ∧
    (max_drift_time_bins W tmin tmax).length = 2 := by
  have hw : max_drift_bin_width W tmin tmax = (tmax - tmin) / 2 :=
    if_pos h
  refine ⟨hw, ?_⟩
  have hpos : (0 : ℚ) < tmax - tmin := by linarith
  rw [max_drift_time_bins, hw, arangeQ, if_neg (by linarith : ¬ (tmax - tmin) / 2 ≤ 0)]
  have h2 : (tmax - tmin) / ((tmax - tmin) / 2) = 2 := by
    field_simp
  rw [List.length_map, List.length_range, h2]
  decide

/-- Witness for C9 (amended): with default width 1 and lifetime 1 the width
becomes 1/2 and the edge grid has 2 entries. -/
theorem claim_C9_amended_witness :
    max_drift_bin_width 1 0 1 = (1 - 0) / 2 ∧
    (max_drift_time_bins 1 0 1).length = 2 :=
  claim_C9_amended 1 0 1 (by norm_num) (by norm_num)

/-- C3: a unit whose `n_peaks` exceeds `max_n_peaks` is labelled NOISE by
`get_quality_unit_type`, whatever every other metric and parameter is: the
noise rule takes precedence over the MUA and GOOD rules (the MUA mask is
gated on the unit type still being unassigned, and the non-somatic
relabelling skips noise units in both of its branches). -/
theorem claim_C3_noise_precedence (p : ClassifierParams) (m : QualityMetricsRow)
    (v : ℚ) (hv : m.n_peaks = some v) (h : p.max_n_peaks < v) :
    get_quality_unit_type p m = 0 ∧
    unit_type_label p (get_quality_unit_type p m) = "NOISE" := by
  have hnoise : noise_mask p m = true := by
    simp [noise_mask, nanGT, hv, h]
  have ht : get_quality_unit_type p m = 0 := by
    unfold get_quality_unit_type
    simp [hnoise]
  exact ⟨ht, by rw [ht]; rfl⟩

/-- Witness for C3: a unit whose metrics are all GOOD-worthy except
`n_peaks = 5 > max_n_peaks = 2` is labelled NOISE. -/
theorem claim_C3_witness :
    get_quality_unit_type baseParams { goodRow with n_peaks := some 5 } = 0 ∧
    unit_type_label baseParams
      (get_quality_unit_type baseParams { goodRow with n_peaks := some 5 }) = "NOISE" :=
  claim_C3_noise_precedence baseParams { goodRow with n_peaks := some 5 } 5 rfl
    (by norm_num [baseParams])

/-- C4 (code bug): with distance metrics enabled, a non-noise unit whose
isolation distance is BELOW the threshold `iso_d_min` (here 5 < 10) and whose
other metrics all pass is classified GOOD (code 1), not MUA (code 2): line
1609 of the source tests `isolation_dist > iso_d_min`, so a unit is flagged
MUA when its isolation distance is too HIGH, the opposite of the spec (and of
the meaning of the parameter name `iso_d_min`, a lower bound). -/
theorem claim_C4_isolation_comparison_inverted :
    get_quality_unit_type
      { baseParams with compute_distance_metrics := true }
      { goodRow with isolation_dist := some 5, l_ratio := some 0 } = 1 ∧
    ¬ get_quality_unit_type
      { baseParams with compute_distance_metrics := true }
      { goodRow with isolation_dist := some 5, l_ratio := some 0 } = 2 ∧
    (5 : ℚ) < ClassifierParams.iso_d_min { baseParams with compute_distance_metrics := true } := by
  refine ⟨by decide, by decide, by norm_num [baseParams]⟩

/-- numpy integer indexing into an array of length `n`: indices in `[0, n)`
index from the front, indices in `[-n, 0)` from the back.  In the
njit-compiled `remove_duplicates` an index outside `[-n, n)` is undefined
behaviour (numba performs no bounds check); the model skips such accesses
(`none`), which only arise for batches of fewer than 26 spikes - every
concrete input below stays in bounds. -/
def npWrapIdx (n : ℕ) (j : ℤ) : Option ℕ :=
  if 0 ≤ j ∧ j < (n : ℤ) then some j.toNat
  else if -(n : ℤ) ≤ j ∧ j < 0 then some (j + (n : ℤ)).toNat
  else none

/-- The integers `a, a+1, ..., b-1` (`np.arange(a, b)` for integers). -/
def intRange (a b : ℤ) : List ℤ :=
  (List.range (b - a).toNat).map (fun (k : ℕ) => a + (k : ℤ))

/-- One candidate pair of the inner loop of `remove_duplicates` (lines
84-134): spike `i1` against the spike at (already wrapped) index `jn`, on
the state (current spike times, removal flags).  As in the source: a spike
already flagged for removal is skipped (line 88); spikes whose units peak on
different channels are skipped (lines 91-95); otherwise, when both times are
still live (removal writes NaN into the time array, and any comparison with
NaN is false) and within the duplicate window, the intra-unit rule removes
the lower-amplitude spike (ties remove `jn`, lines 97-114), and the
inter-unit rule removes `i1` when its unit has strictly fewer spikes in the
batch than `jn`'s unit, else removes `jn` (lines 117-134). -/
def dupPairStep (clusters : List ℕ) (amps : List ℤ) (clustersFlat : List ℕ)
    (peakChannels : List ℕ) (window : ℤ)
    (st : List (Option ℤ) × List Bool) (i1 jn : ℕ) :
    List (Option ℤ) × List Bool :=
  if st.2.getD jn false then st
  else if peakChannels.getD (clustersFlat.getD i1 0) 0
      ≠ peakChannels.getD (clustersFlat.getD jn 0) 0 then st
  else
    let withinWindow : Bool :=
      match st.1.getD i1 none, st.1.getD jn none with
      | some t1, some t2 => decide (|t1 - t2| ≤ window)
      | _, _ => false
    if !withinWindow then st
    else if clusters.getD i1 0 = clusters.getD jn 0 then
      if amps.getD i1 0 < amps.getD jn 0 then (st.1.set i1 none, st.2.set i1 true)
      else (st.1.set jn none, st.2.set jn true)
    else
      if clusters.count (clusters.getD i1 0) < clusters.count (clusters.getD jn 0) then
        (st.1.set i1 none, st.2.set i1 true)
      else (st.1.set jn none, st.2.set jn true)

/-- `remove_duplicates` (lines 39-136): for each spike `i1` not yet flagged,
compare against the spikes at raw indices `i1-25 .. min(i1+25, n)-1`
(`np.arange(spike_idx1 - 25, min(spike_idx1 + 25, num_spikes))`), skipping
the raw index equal to `i1` (the source's `spike_idx1 == spike_idx2` test
compares raw index values, so a negative alias of `i1` is NOT skipped,
exactly as in numpy).  `unit_spike_counts = np.bincount(batch_spike_clusters)`
is the per-unit spike count of the batch, modelled by `List.count`.  Returns
the removal-flag array. -/
def remove_duplicates (times : List ℤ) (clusters : List ℕ) (amps : List ℤ)
    (clustersFlat : List ℕ) (peakChannels : List ℕ) (window : ℤ) : List Bool :=
  let n := times.length
  ((List.range n).foldl
    (fun st i1 =>
      if st.2.getD i1 false then st
      else
        (intRange ((i1 : ℤ) - 25) (min ((i1 : ℤ) + 25) (n : ℤ))).foldl
          (fun st2 j =>
            if j = (i1 : ℤ) then st2
            else
              match npWrapIdx n j with
              | none => st2
              | some jn =>
                dupPairStep clusters amps clustersFlat peakChannels window st2 i1 jn)
          st)
    (times.map some, List.replicate n false)).2

/-- Keep the entries whose removal flag is down: the pruning
`array[np.argwhere(duplicate_spike_idx == 0)]` of `remove_duplicate_spikes`
(lines 253-255). -/
def keepNotRemoved {α : Type} (mask : List Bool) (l : List α) : List α :=
  ((mask.zip l).filter (fun p => !p.1)).map (fun p => p.2)

/-- The `spike_clusters_flat` renumbering of `remove_duplicate_spikes`
(lines 204-210): cluster id `c` maps to its rank among the distinct ids
present in the spike train (`new_spike_idx[good_templates_idx] =
np.arange(...)`). -/
def flat_ids (clusters : List ℕ) : List ℕ :=
  clusters.map (fun c => ((List.range c).filter (fun d => clusters.contains d)).length)

/-- Spike times of the C1 scenario: spikes 0 and 1 at times 0 and 1 (within
the window of 5 samples), then 24 spikes far apart (100, 200, ..., 2400);
26 spikes keep every compared index in bounds. -/
def c1_times : List ℤ :=
  [0, 1] ++ (List.range 24).map (fun (k : ℕ) => 100 * ((k : ℤ) + 1))

/-- Clusters of the C1 scenario: spike 0 is the sole spike of cluster 0;
spikes 1-25 belong to cluster 1 (25 spikes), all units peaking on channel 0. -/
def c1_clusters : List ℕ :=
  0 :: List.replicate 25 1

/-- C1 (code bug): in the inter-unit duplicate pair (spike 0 of cluster 0,
1 spike in batch; spike 1 of cluster 1, 25 spikes in batch) the resolver
flags spike 0 - the spike of the cluster with FEWER total spikes - and keeps
the spike of the more prolific cluster: lines 126-134 remove `spike_idx1`
exactly when its unit's count is the smaller one, the opposite of the claim
and of the function's own docstring ("will remove the most common spike of
the batch") and inline comment ("keep spike from unit with less spikes"). -/
theorem claim_C1_inter_unit_removes_rarer_cluster_spike :
    remove_duplicates c1_times c1_clusters (List.replicate 26 1)
        (flat_ids c1_clusters) [0, 0] 5
      = (List.replicate 26 false).set 0 true ∧
    c1_clusters.getD 0 0 = 0 ∧ c1_clusters.getD 1 0 = 1 ∧
    c1_clusters.count 0 < c1_clusters.count 1 := by
  refine ⟨by decide, by decide, by decide, by decide⟩

/-- Spike times of the C8 scenario: 25 padding spikes (0, 10, ..., 240) on a
third channel, spike A at 1000, 25 coincident spikes at 1002 on another
channel, spike B at 1005.  A and B are same-channel duplicates (gap 5 =
window) but 26 indices apart, outside the +-25-index comparison radius. -/
def c8_times : List ℤ :=
  (List.range 25).map (fun (k : ℕ) => 10 * (k : ℤ)) ++ [1000]
    ++ List.replicate 25 1002 ++ [1005]

/-- Clusters of the C8 scenario: padding spikes are cluster 2, A and B are
cluster 0, the coincident middle spikes are cluster 1; unit `c` peaks on
channel `c`. -/
def c8_clusters : List ℕ :=
  List.replicate 25 2 ++ [0] ++ List.replicate 25 1 ++ [0]

/-- The first-run removal mask of the C8 scenario. -/
def c8_mask1 : List Bool :=
  remove_duplicates c8_times c8_clusters (List.replicate 52 1)
    (flat_ids c8_clusters) [0, 1, 2] 5

/-- C8 counterexample: the first run removes the 24 redundant coincident
middle spikes; on the pruned output A and B are only 2 indices apart, fall
inside the comparison radius, and the second run flags one additional spike
- duplicate removal is NOT idempotent. -/
theorem claim_C8_counterexample :
    c8_mask1.count true = 24 ∧
    (remove_duplicates (keepNotRemoved c8_mask1 c8_times)
        (keepNotRemoved c8_mask1 c8_clusters)
        (keepNotRemoved c8_mask1 (List.replicate 52 1))
        (flat_ids (keepNotRemoved c8_mask1 c8_clusters)) [0, 1, 2] 5).count true
      = 1 := by
  refine ⟨by decide, by decide⟩

/-- Pruning with an all-false mask keeps every entry. -/
theorem keepNotRemoved_all_false {α : Type} (l : List α) :
    keepNotRemoved (List.replicate l.length false) l = l := by
  induction l with
  | nil => rfl
  | cons a t ih =>
    have hstep : keepNotRemoved (List.replicate (a :: t).length false) (a :: t)
        = a :: keepNotRemoved (List.replicate t.length false) t := by
      simp [keepNotRemoved, List.replicate_succ]
    rw [hstep, ih]

/-- C8 as amended: the resolver is idempotent on fixed points - when the
first run flags no spike, the pruned output is the input itself and a second
run flags none either.  In general a second run can flag additional spikes,
because pruning can bring two same-channel spikes inside the +-25-index
comparison radius that were farther apart before (see the counterexample). -/
theorem claim_C8_amended (times : List ℤ) (clusters : List ℕ) (amps : List ℤ)
    (peakChannels : List ℕ) (window : ℤ)
    (hc : clusters.length = times.length) (ha : amps.length = times.length)
    (h : remove_duplicates times clusters amps (flat_ids clusters) peakChannels window
      = List.replicate times.length false) :
    remove_duplicates
      (keepNotRemoved (remove_duplicates times clusters amps (flat_ids clusters)
        peakChannels window) times)
      (keepNotRemoved (remove_duplicates times clusters amps (flat_ids clusters)
        peakChannels window) clusters)
      (keepNotRemoved (remove_duplicates times clusters amps (flat_ids clusters)
        peakChannels window) amps)
      (flat_ids (keepNotRemoved (remove_duplicates times clusters amps
        (flat_ids clusters) peakChannels window) clusters))
      peakChannels window
      = List.replicate times.length false := by
  rw [h]
  have h1 : keepNotRemoved (List.replicate times.length false) times = times :=
    keepNotRemoved_all_false times
  have h2 : keepNotRemoved (List.replicate times.length false) clusters = clusters := by
    rw [← hc]
    exact keepNotRemoved_all_false clusters
  have h3 : keepNotRemoved (List.replicate times.length false) amps = amps := by
    rw [← ha]
    exact keepNotRemoved_all_false amps
  rw [h1, h2, h3, h]

/-- Spike times of the C8 witness scenario: 26 spikes of one unit, 100
samples apart, so no pair is within the 5-sample window and the first run
removes nothing. -/
def w8_times : List ℤ :=
  (List.range 26).map (fun (k : ℕ) => 100 * (k : ℤ))

/-- Clusters of the C8 witness scenario: a single unit, peaking on
channel 0. -/
def w8_clusters : List ℕ :=
  List.replicate 26 0

/-- Witness for C8 (amended): the first run on the witness scenario removes
nothing, and the second run on its (unchanged) pruned output removes nothing
either. -/
theorem claim_C8_amended_witness :
    remove_duplicates
      (keepNotRemoved (remove_duplicates w8_times w8_clusters (List.replicate 26 1)
        (flat_ids w8_clusters) [0] 5) w8_times)
      (keepNotRemoved (remove_duplicates w8_times w8_clusters (List.replicate 26 1)
        (flat_ids w8_clusters) [0] 5) w8_clusters)
      (keepNotRemoved (remove_duplicates w8_times w8_clusters (List.replicate 26 1)
        (flat_ids w8_clusters) [0] 5) (List.replicate 26 1))
      (flat_ids (keepNotRemoved (remove_duplicates w8_times w8_clusters
        (List.replicate 26 1) (flat_ids w8_clusters) [0] 5) w8_clusters))
      [0] 5
      = List.replicate w8_times.length false :=
  claim_C8_amended w8_times w8_clusters (List.replicate 26 1) [0] 5
    (by decide) (by decide) (by decide)

/-- The spikes of one time chunk,
`these_spike_times[(t >= time_chunks[i]) & (t < time_chunks[i+1])]`
(lines 576-581). -/
def chunk_times (lo hi : ℚ) (times : List ℚ) : List ℚ :=
  times.filter (fun t => decide (lo ≤ t) && decide (t < hi))

/-- Adjacent inter-spike intervals, `np.diff(chunk_spike_times)`. -/
def isis (l : List ℚ) : List ℚ :=
  (l.zip l.tail).map (fun p => p.2 - p.1)

/-- The Hill-mode violation count (lines 598-600): adjacent ISIs at most
tauR. -/
def num_violations_hill (tauR lo hi : ℚ) (times : List ℚ) : ℕ :=
  (isis (chunk_times lo hi times)).countP (fun d => decide (d ≤ tauR))

/-- Pairs `i < j` of the list with `tauC ≤ t_j - t_i ≤ tauR` (the double
loop of lines 641-645). -/
def countPairsFrom (tauC tauR : ℚ) : List ℚ → ℕ
  | [] => 0
  | t :: rest =>
    rest.countP (fun u => decide (tauC ≤ u - t) && decide (u - t ≤ tauR))
      + countPairsFrom tauC tauR rest

/-- The exact-pairwise violation count of one chunk. -/
def num_violations_pairwise (tauC tauR lo hi : ℚ) (times : List ℚ) : ℕ :=
  countPairsFrom tauC tauR (chunk_times lo hi times)

/-- The leading Hill coefficient `k = 2(tauR - tauC)·n_chunk²` (lines
591-595). -/
def hill_k (tauC tauR : ℚ) (n : ℕ) : ℚ :=
  2 * (tauR - tauC) * (n : ℚ) ^ 2

/-- The discriminant of the Hill quadratic `-k·x² + k·x - v·T`
(`b² - 4ac = k² - 4kvT`): `np.roots` returns real roots exactly when it is
nonnegative. -/
def hill_disc (tauC tauR T : ℚ) (n v : ℕ) : ℚ :=
  hill_k tauC tauR n ^ 2 - 4 * hill_k tauC tauR n * (v : ℚ) * T

/-- The final clamp of the Hill branch (lines 632-635): a fraction above 1
makes no sense and is set to 1. -/
noncomputable def clamp1 (f : ℝ) : ℝ :=
  if 1 < f then 1 else f

/-- The unclamped Hill estimate for `v > 0` violations: the smaller root of
`np.roots((-k, k, -v·T))` when the roots are real (`k ≠ 0` and nonnegative
discriminant; for `k = 0` `np.roots` returns no roots and
`np.all(np.iscomplex([]))` is vacuously true, selecting the complex branch);
otherwise the direct estimate `v/(2(tauR-tauC)(n-v))` for `v < n` and 1 for
`v ≥ n`.  In the direct estimate numpy evaluates `v/0.0 = inf` when
`tauR = tauC`; the clamp maps `inf` to 1, so that sub-case is written as the
above-1 constant 2 and lands on the same 1. -/
noncomputable def hill_estimate (tauC tauR T : ℚ) (n v : ℕ) : ℝ :=
  if hill_k tauC tauR n ≠ 0 ∧ 0 ≤ hill_disc tauC tauR T n v then
    min ((-((hill_k tauC tauR n : ℚ) : ℝ)
            + Real.sqrt ((hill_disc tauC tauR T n v : ℚ) : ℝ))
          / (2 * (-((hill_k tauC tauR n : ℚ) : ℝ))))
        ((-((hill_k tauC tauR n : ℚ) : ℝ)
            - Real.sqrt ((hill_disc tauC tauR T n v : ℚ) : ℝ))
          / (2 * (-((hill_k tauC tauR n : ℚ) : ℝ))))
  else if v < n then
    (if 2 * (tauR - tauC) * ((n : ℚ) - (v : ℚ)) = 0 then 2
     else ((((v : ℚ) / (2 * (tauR - tauC) * ((n : ℚ) - (v : ℚ))) : ℚ)) : ℝ))
  else 1

/-- The scalar core of the Hill-mode RPV fraction (lines 589-635) for one
chunk of `n` spikes with `v` observed violations over duration `T`: zero
observed violations yield 0 at once (lines 602-607); otherwise the clamped
Hill estimate. -/
noncomputable def hill_core (tauC tauR T : ℚ) (n v : ℕ) : ℝ :=
  if v = 0 then 0
  else clamp1 (hill_estimate tauC tauR T n v)

/-- `fraction_RP_violations` in Hill mode (`use_hill_method`), for one time
chunk `[lo, hi)` and one candidate tauR. -/
noncomputable def fraction_RP_violations_hill (tauC tauR lo hi : ℚ)
    (times : List ℚ) : ℝ :=
  hill_core tauC tauR (hi - lo)
    (chunk_times lo hi times).length (num_violations_hill tauR lo hi times)

/-- The scalar core of the exact-pairwise RPV fraction (lines 636-651) for
one chunk of `N` spikes with `v` counted violating pairs over duration `T`:
the radicand is `1 - v(T - 2N·tauC)/(N²(tauR-tauC))`; when nonnegative the
fraction is `1 - sqrt(radicand)`, otherwise 1.  When the denominator
`N²(tauR-tauC)` is zero numpy produces `0/0 = NaN` (and `NaN >= 0` is
false) or, for a positive numerator, `-inf`: both land in the 1 branch,
modelled directly.  The remaining sub-case - a negative numerator with a
zero denominator, which needs `tauR = tauC` together with a pair exactly
`tauC` apart - diverges to `1 - sqrt(inf) = -inf` in numpy and is outside
this model; no theorem below touches a zero denominator. -/
noncomputable def pairwise_core (tauC tauR T : ℚ) (N v : ℕ) : ℝ :=
  if (N : ℚ) ^ 2 * (tauR - tauC) = 0 then 1
  else if 0 ≤ 1 - ((v : ℚ) * (T - 2 * (N : ℚ) * tauC)) / ((N : ℚ) ^ 2 * (tauR - tauC)) then
    1 - Real.sqrt (((1 - ((v : ℚ) * (T - 2 * (N : ℚ) * tauC))
      / ((N : ℚ) ^ 2 * (tauR - tauC)) : ℚ)) : ℝ)
  else 1

/-- `fraction_RP_violations` in exact-pairwise mode (`use_hill_method`
false), for one time chunk `[lo, hi)` and one candidate tauR. -/
noncomputable def fraction_RP_violations_pairwise (tauC tauR lo hi : ℚ)
    (times : List ℚ) : ℝ :=
  pairwise_core tauC tauR (hi - lo)
    (chunk_times lo hi times).length (num_violations_pairwise tauC tauR lo hi times)

/-- Rewriting of a quadratic root at a negated denominator. -/
theorem neg_root_form (k s : ℝ) (hk : k ≠ 0) :
    (-k + s) / (2 * -k) = (k - s) / (2 * k) ∧
    (-k - s) / (2 * -k) = (k + s) / (2 * k) := by
  constructor <;> field_simp <;> ring

/-- The clamp keeps a nonnegative value inside [0,1]. -/
theorem clamp1_mem_unit (f : ℝ) (hf : 0 ≤ f) : 0 ≤ clamp1 f ∧ clamp1 f ≤ 1 := by
  rw [clamp1]
  split
  · exact ⟨by norm_num, le_refl 1⟩
  · exact ⟨hf, by linarith [not_lt.mp (by assumption : ¬ 1 < f)]⟩

/-- The Hill-mode core lies in [0,1] whenever `tauC ≤ tauR` and the chunk
duration is nonnegative. -/
theorem hill_core_mem_unit (tauC tauR T : ℚ) (n v : ℕ)
    (htau : tauC ≤ tauR) (hT : 0 ≤ T) :
    0 ≤ hill_core tauC tauR T n v ∧ hill_core tauC tauR T n v ≤ 1 := by
  rw [hill_core]
  by_cases hv : v = 0
  · rw [if_pos hv]
    norm_num
  · rw [if_neg hv]
    have hk0 : 0 ≤ hill_k tauC tauR n := by
      rw [hill_k]
      have : (0 : ℚ) ≤ tauR - tauC := by linarith
      positivity
    refine clamp1_mem_unit _ ?_
    rw [hill_estimate]
    by_cases hreal : hill_k tauC tauR n ≠ 0 ∧ 0 ≤ hill_disc tauC tauR T n v
    · rw [if_pos hreal]
      have hkpos : (0 : ℚ) < hill_k tauC tauR n := lt_of_le_of_ne hk0 (Ne.symm hreal.1)
      have hkRpos : (0 : ℝ) < ((hill_k tauC tauR n : ℚ) : ℝ) := by exact_mod_cast hkpos
      have hsnn : 0 ≤ Real.sqrt ((hill_disc tauC tauR T n v : ℚ) : ℝ) :=
        Real.sqrt_nonneg _
      have hsk : Real.sqrt ((hill_disc tauC tauR T n v : ℚ) : ℝ)
          ≤ ((hill_k tauC tauR n : ℚ) : ℝ) := by
        have hdq : hill_disc tauC tauR T n v ≤ hill_k tauC tauR n ^ 2 := by
          rw [hill_disc]
          have h4 : 0 ≤ 4 * hill_k tauC tauR n * (v : ℚ) * T := by positivity
          linarith
        have hd : ((hill_disc tauC tauR T n v : ℚ) : ℝ)
            ≤ ((hill_k tauC tauR n : ℚ) : ℝ) ^ 2 := by
          exact_mod_cast hdq
        calc Real.sqrt ((hill_disc tauC tauR T n v : ℚ) : ℝ)
            ≤ Real.sqrt (((hill_k tauC tauR n : ℚ) : ℝ) ^ 2) := Real.sqrt_le_sqrt hd
          _ = ((hill_k tauC tauR n : ℚ) : ℝ) := Real.sqrt_sq hkRpos.le
      have he := neg_root_form ((hill_k tauC tauR n : ℚ) : ℝ)
        (Real.sqrt ((hill_disc tauC tauR T n v : ℚ) : ℝ)) (ne_of_gt hkRpos)
      rw [he.1, he.2]
      have hr1 : 0 ≤ (((hill_k tauC tauR n : ℚ) : ℝ)
          - Real.sqrt ((hill_disc tauC tauR T n v : ℚ) : ℝ))
          / (2 * ((hill_k tauC tauR n : ℚ) : ℝ)) :=
        div_nonneg (by linarith) (by linarith)
      have hr2 : 0 ≤ (((hill_k tauC tauR n : ℚ) : ℝ)
          + Real.sqrt ((hill_disc tauC tauR T n v : ℚ) : ℝ))
          / (2 * ((hill_k tauC tauR n : ℚ) : ℝ)) :=
        div_nonneg (by linarith) (by linarith)
      exact le_min hr1 hr2
    · rw [if_neg hreal]
      by_cases hvn : v < n
      · rw [if_pos hvn]
        by_cases hd0 : 2 * (tauR - tauC) * ((n : ℚ) - (v : ℚ)) = 0
        · rw [if_pos hd0]
          norm_num
        · rw [if_neg hd0]
          have hvq : (v : ℚ) ≤ (n : ℚ) := by exact_mod_cast hvn.le
          have hdnn : (0 : ℚ) ≤ 2 * (tauR - tauC) * ((n : ℚ) - (v : ℚ)) := by
            have h1 : (0 : ℚ) ≤ tauR - tauC := by linarith
            have h2 : (0 : ℚ) ≤ (n : ℚ) - (v : ℚ) := by linarith
            positivity
          have : (0 : ℚ) ≤ (v : ℚ) / (2 * (tauR - tauC) * ((n : ℚ) - (v : ℚ))) :=
            div_nonneg (by positivity) hdnn
          exact_mod_cast this
      · rw [if_neg hvn]
        norm_num

/-- The pairwise core never exceeds 1 and equals 0 for a nonempty chunk with
no violating pair (given `tauC < tauR`). -/
theorem pairwise_core_props (tauC tauR T : ℚ) (N v : ℕ) :
    pairwise_core tauC tauR T N v ≤ 1 ∧
    (tauC < tauR → 1 ≤ N → v = 0 → pairwise_core tauC tauR T N v = 0) := by
  constructor
  · rw [pairwise_core]
    split
    · exact le_refl 1
    · split
      · have := Real.sqrt_nonneg
          (((1 - ((v : ℚ) * (T - 2 * (N : ℚ) * tauC))
            / ((N : ℚ) ^ 2 * (tauR - tauC)) : ℚ)) : ℝ)
        linarith
      · exact le_refl 1
  · intro htau hN hv
    rw [pairwise_core]
    have hdenom : ((N : ℚ) ^ 2 * (tauR - tauC)) ≠ 0 := by
      have hNpos : (0 : ℚ) < (N : ℚ) := by exact_mod_cast hN
      have : (0 : ℚ) < tauR - tauC := by linarith
      positivity
    rw [if_neg hdenom, hv]
    norm_num [Real.sqrt_one]

/-- C2 counterexample: in exact-pairwise mode with tauC = 1/4 s,
tauR = 1/2 s, a one-second chunk holding the three spikes 0, 0.3, 0.9 has
one violating pair (ISI 0.3) and `T - 2N·tauC = 1 - 3/2 < 0`, so the
radicand is `11/9 > 1` and the returned fraction `1 - sqrt(11/9)` is
negative - outside [0,1], refuting the claim. -/
theorem claim_C2_counterexample :
    fraction_RP_violations_pairwise (1 / 4) (1 / 2) 0 1 [0, 3 / 10, 9 / 10] < 0 := by
  have hN : (chunk_times 0 1 [0, 3 / 10, 9 / 10]).length = 3 := by decide
  have hv : num_violations_pairwise (1 / 4) (1 / 2) 0 1 [0, 3 / 10, 9 / 10] = 1 := by
    decide
  rw [fraction_RP_violations_pairwise, hN, hv]
  rw [pairwise_core, if_neg (by push_cast; norm_num), if_pos (by push_cast; norm_num)]
  rw [sub_neg, Real.lt_sqrt (by norm_num)]
  push_cast
  norm_num

/-- C2 as amended: in Hill mode (for `tauC ≤ tauR` and a well-ordered chunk)
the fraction lies in [0,1] and zero observed violations yield exactly 0; in
exact-pairwise mode the fraction never exceeds 1, and zero observed
violating pairs yield exactly 0 provided the chunk holds at least one spike
and `tauC < tauR` - but it can drop below 0 when `T < 2N·tauC` (see the
counterexample), and an empty chunk yields 1, not 0. -/
theorem claim_C2_amended (tauC tauR lo hi : ℚ) (times : List ℚ)
    (htau : tauC ≤ tauR) (hlohi : lo ≤ hi) :
    (0 ≤ fraction_RP_violations_hill tauC tauR lo hi times ∧
      fraction_RP_violations_hill tauC tauR lo hi times ≤ 1) ∧
    (num_violations_hill tauR lo hi times = 0 →
      fraction_RP_violations_hill tauC tauR lo hi times = 0) ∧
    fraction_RP_violations_pairwise tauC tauR lo hi times ≤ 1 ∧
    (tauC < tauR → 1 ≤ (chunk_times lo hi times).length →
      num_violations_pairwise tauC tauR lo hi times = 0 →
      fraction_RP_violations_pairwise tauC tauR lo hi times = 0) := by
  have hT : (0 : ℚ) ≤ hi - lo := by linarith
  refine ⟨hill_core_mem_unit tauC tauR (hi - lo) _ _ htau hT, ?_, ?_, ?_⟩
  · intro hv
    rw [fraction_RP_violations_hill, hv, hill_core]
    norm_num
  · exact (pairwise_core_props tauC tauR (hi - lo) _ _).1
  · intro h1 h2 h3
    rw [fraction_RP_violations_pairwise, h3]
    exact (pairwise_core_props tauC tauR (hi - lo) _ 0).2 h1 h2 rfl

/-- Witness for C2 (amended): a one-second chunk holding a single spike has
zero violations in both modes and both fractions evaluate to exactly 0. -/
theorem claim_C2_amended_witness :
    fraction_RP_violations_hill 0 1 0 1 [1 / 2] = 0 ∧
    fraction_RP_violations_pairwise 0 1 0 1 [1 / 2] = 0 := by
  have h := claim_C2_amended 0 1 0 1 [1 / 2] (by norm_num) (by norm_num)
  exact ⟨h.2.1 (by decide), h.2.2.2 (by norm_num) (by decide) (by decide)⟩

end Bombcell
